import Mathlib

/-!
Verification of `contracts/dao-voting-adapter/schema/generate_full_schema.py`.

The script composes a single JSON document from schema fragments found in the
current working directory.  We embed it shallowly: a directory is the listing
the script sees (`os.listdir` plus `os.path.isfile`), each entry carrying its
name, whether it is a regular file, and the result of parsing its bytes as
JSON (`none` = the bytes do not parse, so `json.load` raises).  The script's
control flow is sequential and aborts on the first uncaught exception, which
we model in the `Except` monad: the output file is written only when every
load succeeded, exactly as `json.dump` is only reached after all `json.load`
calls returned.
-/

/-- A parsed JSON document (the payloads are opaque to the script). -/
inductive Json where
  | null : Json
  | bool : Bool → Json
  | num : Int → Json
  | str : String → Json
  | arr : List Json → Json
  | obj : List (String × Json) → Json

/-- One entry of the working directory as the script observes it:
its name, whether `os.path.isfile` holds, and the result of parsing its
contents as JSON (`none` when `json.load` would raise a decode error). -/
structure Entry where
  name : String
  isFile : Bool
  content : Option Json

/-- The working directory: the listing returned by `os.listdir(".")`,
in enumeration order. -/
abbrev Dir := List Entry

/-- The exceptions that abort the script: `FileNotFoundError` from `open`,
`IsADirectoryError` from `open` on a directory, and `json.JSONDecodeError`
from `json.load`. -/
inductive RunError where
  | missingFile : String → RunError
  | notAFile : String → RunError
  | parseError : String → RunError
deriving DecidableEq

/-- The suffix the script filters response files by: `"_response.json"`. -/
def marker : List Char := '_' :: 'r' :: 'e' :: 's' :: 'p' :: 'o' :: 'n' :: 's' :: 'e' :: '.' :: 'j' :: 's' :: 'o' :: 'n' :: []

/-- The fixed output file name `dao_voting_adapter_full_schema.json`. -/
def outputName : String := "dao_voting_adapter_full_schema.json"

/-- `f.endswith("_response.json")` on a file name. -/
def endsWithMarker (n : String) : Bool :=
  List.isSuffixOf marker n.data

/-- `files = [f for f in os.listdir(".") if os.path.isfile(f)]` followed by
the loop appending every `f` with `f.endswith("_response.json")`. -/
def discover (d : Dir) : List Entry :=
  (d.filter (fun e => e.isFile)).filter (fun e => endsWithMarker e.name)

/-- The longest prefix of `s` strictly before the first occurrence of `sep`;
all of `s` when `sep` does not occur.  This is `s.split(sep)[0]` in Python
for a non-empty `sep`. -/
def splitBefore (sep : List Char) : List Char → List Char
  | [] => []
  | c :: cs => if List.isPrefixOf sep (c :: cs) then [] else c :: splitBefore sep cs

/-- `file.split("_response.json")[0]`: the derived key of a response file. -/
def deriveKey (n : String) : String :=
  ⟨splitBefore marker n.data⟩

/-- `open(n)` followed by `json.load`: find the entry named `n`; raise if it
is absent, a directory, or fails to parse. -/
def loadRequired (d : Dir) (n : String) : Except RunError Json :=
  match d.find? (fun e => e.name == n) with
  | none => .error (.missingFile n)
  | some e =>
    if e.isFile then
      match e.content with
      | none => .error (.parseError n)
      | some j => .ok j
    else .error (.notAFile n)

/-- Assignment `m[k] = v` on a Python `dict`: an existing key keeps its
position and gets the new value, a new key is appended at the end. -/
def dictInsert (k : String) (v : Json) : List (String × Json) → List (String × Json)
  | [] => [(k, v)]
  | (k', v') :: rest => if k' = k then (k, v) :: rest else (k', v') :: dictInsert k v rest

/-- The loop `for file in responses: schema["responses"][key] = json.load(f)`,
processing discovered entries in listing order over accumulator `acc`. -/
def loadResponses (acc : List (String × Json)) : List Entry → Except RunError (List (String × Json))
  | [] => .ok acc
  | e :: rest =>
    match e.content with
    | none => .error (.parseError e.name)
    | some j => loadResponses (dictInsert (deriveKey e.name) j acc) rest

/-- The composed `schema` dictionary right before `json.dump`: the literal
initialized at the top of the script with `instantiate`, `execute`, `query`
and `responses` overwritten. -/
def compose (i e q : Json) (rs : List (String × Json)) : Json :=
  .obj [("instantiate", i), ("execute", e), ("query", q),
        ("migrate", .obj []), ("sudo", .obj []), ("responses", .obj rs)]

/-- The whole script run on directory `d`: discovery, the three mandatory
loads in source order, the response loop, then the composed schema.  An
`Except.error` is an uncaught exception, i.e. a non-zero exit with no
output written. -/
def run (d : Dir) : Except RunError Json := do
  let resps := discover d
  let i ← loadRequired d "instantiate_msg.json"
  let e ← loadRequired d "execute_msg.json"
  let q ← loadRequired d "query_msg.json"
  let rs ← loadResponses [] resps
  pure (compose i e q rs)

/-- Writing a file: the entry of that name is replaced in place if present
(the file is overwritten), otherwise a new entry is appended. -/
def writeEntry (x : Entry) : Dir → Dir
  | [] => [x]
  | e :: rest => if e.name = x.name then x :: rest else e :: writeEntry x rest

/-- The effect of the run on the directory: on success `json.dump` writes
`dao_voting_adapter_full_schema.json`; an exception leaves it untouched. -/
def runFS (d : Dir) : Dir :=
  match run d with
  | .error _ => d
  | .ok s => writeEntry ⟨outputName, true, some s⟩ d

/-- Field lookup in a JSON object. -/
def getField (j : Json) (k : String) : Option Json :=
  match j with
  | .obj fs => (fs.find? (fun p => p.1 == k)).map (fun p => p.2)
  | _ => none

/-- The top-level keys of a JSON object. -/
def topKeys (j : Json) : Option (List String) :=
  match j with
  | .obj fs => some (fs.map (fun p => p.1))
  | _ => none

/-- Key derivation following the claim's words rather than the source: the
prefix of the file name before the marker string `"_response"` (everything
from that marker onward removed).  Kept separate from `deriveKey`, which
embeds the source's `file.split("_response.json")[0]`, to compare the two. -/
def deriveKeyClaim (n : String) : String :=
  ⟨splitBefore ('_' :: 'r' :: 'e' :: 's' :: 'p' :: 'o' :: 'n' :: 's' :: 'e' :: []) n.data⟩

/-- `r` is the prefix of `s` strictly before the first occurrence of `sep`:
`r` is a prefix of `s`, no occurrence of `sep` starts inside `r`, and either
`sep` does not occur at all (`r = s`) or it starts right after `r`. -/
def firstSplitAt (sep s r : List Char) : Prop :=
  r <+: s ∧ (∀ i, i < r.length → ¬ sep <+: s.drop i) ∧
    (r = s ∨ sep <+: s.drop r.length)

/-- A directory where the three mandatory fragments have pairwise distinct
contents, to separate the `execute` and `query` channels. -/
def cexDir3 : Dir :=
  [⟨"instantiate_msg.json", true, some (.str "i")⟩,
   ⟨"execute_msg.json", true, some (.str "e")⟩,
   ⟨"query_msg.json", true, some (.str "q")⟩]

/-- A directory holding a response file whose name contains `"_response"`
twice but `"_response.json"` once. -/
def cexDir4 : Dir :=
  [⟨"instantiate_msg.json", true, some .null⟩,
   ⟨"execute_msg.json", true, some .null⟩,
   ⟨"query_msg.json", true, some .null⟩,
   ⟨"a_response_b_response.json", true, some (.num 7)⟩]

/-- A directory holding one well-formed response file `get_vote_response.json`. -/
def dir4w : Dir :=
  [⟨"instantiate_msg.json", true, some .null⟩,
   ⟨"execute_msg.json", true, some .null⟩,
   ⟨"query_msg.json", true, some .null⟩,
   ⟨"get_vote_response.json", true, some (.num 1)⟩]

/-- A directory whose two response files (`foo_response.json` and
`foo_response.json_response.json`) derive the same key `"foo"`. -/
def dir6 (i e q a b : Json) : Dir :=
  [⟨"instantiate_msg.json", true, some i⟩,
   ⟨"execute_msg.json", true, some e⟩,
   ⟨"query_msg.json", true, some q⟩,
   ⟨"foo_response.json", true, some a⟩,
   ⟨"foo_response.json_response.json", true, some b⟩]

/-- A directory holding a response file named exactly `_response.json`. -/
def dir9 (i e q a : Json) : Dir :=
  [⟨"instantiate_msg.json", true, some i⟩,
   ⟨"execute_msg.json", true, some e⟩,
   ⟨"query_msg.json", true, some q⟩,
   ⟨"_response.json", true, some a⟩]

/-- A directory over which a previous run's output file is already present
next to the inputs. -/
def dir10 : Dir :=
  [⟨"instantiate_msg.json", true, some .null⟩,
   ⟨"execute_msg.json", true, some .null⟩,
   ⟨"query_msg.json", true, some .null⟩,
   ⟨"dao_voting_adapter_full_schema.json", true, some (.obj [])⟩,
   ⟨"x_response.json", true, some (.num 2)⟩]

/-- A directory for re-running the pipeline over its own output. -/
def dir8 : Dir :=
  [⟨"instantiate_msg.json", true, some .null⟩,
   ⟨"execute_msg.json", true, some .null⟩,
   ⟨"query_msg.json", true, some .null⟩,
   ⟨"x_response.json", true, some (.num 2)⟩]

/-! ### Helper lemmas -/

theorem exceptBind_ok {α β : Type} {x : Except RunError α} {f : α → Except RunError β}
    {b : β} (h : (x >>= f) = .ok b) : ∃ a, x = .ok a ∧ f a = .ok b := by
  cases x with
  | error e => simp [Bind.bind, Except.bind] at h
  | ok a => exact ⟨a, rfl, by simpa [Bind.bind, Except.bind] using h⟩

/-- Successful runs decompose into successful sub-loads, in source order. -/
theorem run_ok_shape {d : Dir} {s : Json} (h : run d = .ok s) :
    ∃ i e q rs, loadRequired d "instantiate_msg.json" = .ok i ∧
      loadRequired d "execute_msg.json" = .ok e ∧
      loadRequired d "query_msg.json" = .ok q ∧
      loadResponses [] (discover d) = .ok rs ∧
      s = compose i e q rs := by
  unfold run at h
  obtain ⟨i, hi, h⟩ := exceptBind_ok h
  obtain ⟨e, he, h⟩ := exceptBind_ok h
  obtain ⟨q, hq, h⟩ := exceptBind_ok h
  obtain ⟨rs, hrs, h⟩ := exceptBind_ok h
  exact ⟨i, e, q, rs, hi, he, hq, hrs, by simpa [Pure.pure, Except.pure] using h.symm⟩

theorem runFS_of_error {d : Dir} {er : RunError} (h : run d = .error er) :
    runFS d = d := by
  simp [runFS, h]

/-- The payload of a successful load, `none` on an exception. -/
def okValue : Except RunError Json → Option Json
  | .ok j => some j
  | .error _ => none

/-- The three mandatory file names, in the order the script opens them. -/
def requiredNames : List String :=
  ["instantiate_msg.json", "execute_msg.json", "query_msg.json"]

/-- A successful run loads every mandatory fragment successfully. -/
theorem run_ok_required {d : Dir} {s : Json} (h : run d = .ok s) :
    ∀ n ∈ requiredNames, ∃ j, loadRequired d n = .ok j := by
  obtain ⟨i, e, q, rs, hi, he, hq, _, _⟩ := run_ok_shape h
  intro n hn
  simp only [requiredNames, List.mem_cons, List.not_mem_nil, or_false] at hn
  rcases hn with rfl | rfl | rfl
  · exact ⟨i, hi⟩
  · exact ⟨e, he⟩
  · exact ⟨q, hq⟩

/-- Every entry reached by the response loop parsed successfully. -/
theorem loadResponses_ok_parse {l : List Entry} {acc rs : List (String × Json)}
    (h : loadResponses acc l = .ok rs) : ∀ e ∈ l, ∃ j, e.content = some j := by
  induction l generalizing acc with
  | nil => intro e he; cases he
  | cons x xs ih =>
    intro e he
    unfold loadResponses at h
    cases hx : x.content with
    | none => rw [hx] at h; cases h
    | some j =>
      rw [hx] at h
      rcases List.mem_cons.mp he with rfl | he'
      · exact ⟨j, hx⟩
      · exact ih h e he'

theorem dictInsert_mem_self (k : String) (v : Json) (m : List (String × Json)) :
    (k, v) ∈ dictInsert k v m := by
  induction m with
  | nil => simp [dictInsert]
  | cons p rest ih =>
    obtain ⟨k', v'⟩ := p
    by_cases hk : k' = k
    · simp [dictInsert, hk]
    · simp only [dictInsert, if_neg hk]
      exact List.mem_cons_of_mem _ ih

theorem dictInsert_mem_of_ne {k : String} {v : Json} {m : List (String × Json)}
    (k' : String) (v' : Json) (h : (k, v) ∈ m) (hne : k' ≠ k) :
    (k, v) ∈ dictInsert k' v' m := by
  induction m with
  | nil => cases h
  | cons p rest ih =>
    obtain ⟨k₀, v₀⟩ := p
    rcases List.mem_cons.mp h with heq | hmem
    · injection heq with h1 h2
      subst h1; subst h2
      have hcond : ¬ k = k' := fun hh => hne hh.symm
      simp only [dictInsert, if_neg hcond]
      exact List.mem_cons_self _ _
    · by_cases hk : k₀ = k'
      · simp only [dictInsert, if_pos hk]
        exact List.mem_cons_of_mem _ hmem
      · simp only [dictInsert, if_neg hk]
        exact List.mem_cons_of_mem _ (ih hmem)

theorem mem_dictInsert {p : String × Json} {k : String} {v : Json}
    {m : List (String × Json)} (h : p ∈ dictInsert k v m) : p = (k, v) ∨ p ∈ m := by
  induction m with
  | nil => simpa [dictInsert] using h
  | cons q rest ih =>
    obtain ⟨k₀, v₀⟩ := q
    by_cases hk : k₀ = k
    · rw [dictInsert, if_pos hk] at h
      rcases List.mem_cons.mp h with heq | hm
      · exact Or.inl heq
      · exact Or.inr (List.mem_cons_of_mem _ hm)
    · rw [dictInsert, if_neg hk] at h
      rcases List.mem_cons.mp h with heq | hm
      · exact Or.inr (heq ▸ List.mem_cons_self _ _)
      · rcases ih hm with h1 | h2
        · exact Or.inl h1
        · exact Or.inr (List.mem_cons_of_mem _ h2)

theorem getField_dictInsert (k : String) (v : Json) (m : List (String × Json)) :
    getField (.obj (dictInsert k v m)) k = some v := by
  induction m with
  | nil => simp [dictInsert, getField]
  | cons p rest ih =>
    obtain ⟨k₀, v₀⟩ := p
    by_cases hk : k₀ = k
    · simp [dictInsert, hk, getField]
    · have hb : (k₀ == k) = false := by simpa using hk
      simp only [dictInsert, if_neg hk, getField, List.find?, hb]
      simpa [getField] using ih

theorem loadResponses_preserves {l : List Entry} {acc rs : List (String × Json)}
    {k : String} {v : Json} (h : loadResponses acc l = .ok rs) (hmem : (k, v) ∈ acc)
    (hsame : ∀ e ∈ l, deriveKey e.name = k → e.content = some v) : (k, v) ∈ rs := by
  induction l generalizing acc with
  | nil =>
    unfold loadResponses at h
    injection h with h
    exact h ▸ hmem
  | cons x xs ih =>
    unfold loadResponses at h
    cases hx : x.content with
    | none => rw [hx] at h; cases h
    | some j =>
      rw [hx] at h
      by_cases hk : deriveKey x.name = k
      · have hv : some j = some v := by
          rw [← hx]; exact hsame x (List.mem_cons_self _ _) hk
        injection hv with hv
        subst hv
        rw [hk] at h
        exact ih h (dictInsert_mem_self _ _ _)
          (fun y hy hky => hsame y (List.mem_cons_of_mem _ hy) hky)
      · exact ih h (dictInsert_mem_of_ne _ _ hmem hk)
          (fun y hy hky => hsame y (List.mem_cons_of_mem _ hy) hky)

theorem loadResponses_mem {l : List Entry} {acc rs : List (String × Json)} {e : Entry}
    {j : Json} (h : loadResponses acc l = .ok rs) (he : e ∈ l) (hj : e.content = some j)
    (hsame : ∀ x ∈ l, deriveKey x.name = deriveKey e.name → x.content = some j) :
    (deriveKey e.name, j) ∈ rs := by
  induction l generalizing acc with
  | nil => cases he
  | cons x xs ih =>
    unfold loadResponses at h
    cases hx : x.content with
    | none => rw [hx] at h; cases h
    | some jx =>
      rw [hx] at h
      rcases List.mem_cons.mp he with heq | he'
      · subst heq
        have hjx : jx = j := by
          rw [hj] at hx; injection hx with hx; exact hx.symm
        subst hjx
        exact loadResponses_preserves h (dictInsert_mem_self _ _ _)
          (fun y hy hk => hsame y (List.mem_cons_of_mem _ hy) hk)
      · exact ih h he' (fun y hy hk => hsame y (List.mem_cons_of_mem _ hy) hk)

theorem loadResponses_source {l : List Entry} {acc rs : List (String × Json)}
    (h : loadResponses acc l = .ok rs) :
    ∀ p ∈ rs, p ∈ acc ∨ ∃ e, e ∈ l ∧ p.1 = deriveKey e.name ∧ e.content = some p.2 := by
  induction l generalizing acc with
  | nil =>
    unfold loadResponses at h
    injection h with h
    exact fun p hp => Or.inl (h ▸ hp)
  | cons x xs ih =>
    unfold loadResponses at h
    cases hx : x.content with
    | none => rw [hx] at h; cases h
    | some j =>
      rw [hx] at h
      intro p hp
      rcases ih h p hp with hacc | ⟨e, he, h1, h2⟩
      · rcases mem_dictInsert hacc with heq | hacc'
        · subst heq
          exact Or.inr ⟨x, List.mem_cons_self _ _, rfl, hx⟩
        · exact Or.inl hacc'
      · exact Or.inr ⟨e, List.mem_cons_of_mem _ he, h1, h2⟩

theorem splitBefore_first (sep s : List Char) :
    firstSplitAt sep s (splitBefore sep s) := by
  induction s with
  | nil =>
    exact ⟨ List.nil_prefix, fun i hi => by simp [splitBefore] at hi, Or.inl rfl⟩
  | cons c cs ih =>
    obtain ⟨ih1, ih2, ih3⟩ := ih
    by_cases hp : List.isPrefixOf sep (c :: cs) = true
    · rw [show splitBefore sep (c :: cs) = [] from by simp [splitBefore, hp]]
      refine ⟨ List.nil_prefix, fun i hi => by simp at hi, Or.inr ?_⟩
      simpa using List.isPrefixOf_iff_prefix.mp hp
    · rw [show splitBefore sep (c :: cs) = c :: splitBefore sep cs from by
        simp [splitBefore, hp]]
      obtain ⟨t, ht⟩ := ih1
      refine ⟨⟨t, by rw [List.cons_append, ht]⟩, ?_, ?_⟩
      · intro i hi
        cases i with
        | zero =>
          intro hcontra
          exact hp ( List.isPrefixOf_iff_prefix.mpr (by simpa using hcontra))
        | succ i' =>
          simp only [List.length_cons, Nat.succ_lt_succ_iff] at hi
          simpa using ih2 i' hi
      · rcases ih3 with h | h
        · exact Or.inl (by rw [h])
        · exact Or.inr (by simpa using h)

theorem discover_cons (e : Entry) (d : Dir) :
    discover (e :: d) =
      if e.isFile && endsWithMarker e.name then e :: discover d else discover d := by
  cases hf : e.isFile <;> cases he : endsWithMarker e.name <;>
    simp [discover, List.filter_cons, hf, he]

theorem discover_writeEntry {x : Entry} (hx : endsWithMarker x.name = false)
    (d : Dir) : discover (writeEntry x d) = discover d := by
  induction d with
  | nil => simp [writeEntry, discover_cons, hx, discover]
  | cons e es ih =>
    by_cases hname : e.name = x.name
    · have hex : endsWithMarker e.name = false := by rw [hname]; exact hx
      simp [writeEntry, if_pos hname, discover_cons, hx, hex]
    · simp [writeEntry, if_neg hname, discover_cons, ih]

theorem find?_writeEntry {x : Entry} {n : String} (hn : n ≠ x.name) (d : Dir) :
    (writeEntry x d).find? (fun e => e.name == n) = d.find? (fun e => e.name == n) := by
  have hxb : (x.name == n) = false := by simpa using (Ne.symm hn)
  induction d with
  | nil => simp [writeEntry, List.find?, hxb]
  | cons e es ih =>
    by_cases hname : e.name = x.name
    · have heb : (e.name == n) = false := by
        rw [hname]; simpa using (Ne.symm hn)
      simp [writeEntry, if_pos hname, List.find?, hxb, heb]
    · cases hc : (e.name == n) <;>
        simp [writeEntry, if_neg hname, List.find?, hc, ih]

theorem loadRequired_writeEntry {x : Entry} {n : String} (hn : n ≠ x.name) (d : Dir) :
    loadRequired (writeEntry x d) n = loadRequired d n := by
  rw [loadRequired, loadRequired, find?_writeEntry hn]

theorem run_writeEntry {x : Entry} (hx : endsWithMarker x.name = false)
    (h1 : x.name ≠ "instantiate_msg.json") (h2 : x.name ≠ "execute_msg.json")
    (h3 : x.name ≠ "query_msg.json") (d : Dir) :
    run (writeEntry x d) = run d := by
  unfold run
  rw [discover_writeEntry hx,
    loadRequired_writeEntry (Ne.symm h1),
    loadRequired_writeEntry (Ne.symm h2) d]
  simp only [loadRequired_writeEntry (Ne.symm h2), loadRequired_writeEntry (Ne.symm h3)]

theorem writeEntry_idem (x : Entry) (d : Dir) :
    writeEntry x (writeEntry x d) = writeEntry x d := by
  induction d with
  | nil => simp [writeEntry]
  | cons e es ih =>
    by_cases hname : e.name = x.name
    · simp [writeEntry, hname]
    · simp [writeEntry, hname, ih]


/-! ### Claims -/

/-- **C1**: if one of the three mandatory input files is absent from the
working directory, the run aborts with an exception (non-zero exit) and the
output file is not written: the directory is left untouched. -/
theorem missing_required_aborts (d : Dir) (n : String) (hn : n ∈ requiredNames)
    (habs : ∀ e ∈ d, e.name ≠ n) :
    (∃ er, run d = .error er) ∧ runFS d = d := by
  have hload : loadRequired d n = .error (.missingFile n) := by
    have hfind : d.find? (fun e => e.name == n) = none := by
      rw [List.find?_eq_none]
      intro e he
      simpa using habs e he
    simp [loadRequired, hfind]
  have hne : ∀ s, run d ≠ .ok s := by
    intro s hs
    obtain ⟨j, hj⟩ := run_ok_required hs n hn
    rw [hload] at hj
    cases hj
  cases hr : run d with
  | error er => exact ⟨⟨er, rfl⟩, runFS_of_error hr⟩
  | ok s => exact absurd hr (hne s)

/-- **C1 witness**: a directory holding `instantiate_msg.json` and
`query_msg.json` but no `execute_msg.json` makes the run abort without
writing the output file. -/
theorem missing_required_aborts_witness :
    (∃ er, run [⟨"instantiate_msg.json", true, some .null⟩,
                ⟨"query_msg.json", true, some .null⟩] = .error er) ∧
      runFS [⟨"instantiate_msg.json", true, some .null⟩,
             ⟨"query_msg.json", true, some .null⟩] =
        [⟨"instantiate_msg.json", true, some .null⟩,
         ⟨"query_msg.json", true, some .null⟩] :=
  missing_required_aborts _ "execute_msg.json" (by decide)
    (by intro e he h; rcases List.mem_cons.mp he with rfl | he' <;> simp_all)

/-- **C2**: every successful run emits a document with exactly the six
top-level keys `instantiate, execute, query, migrate, sudo, responses`,
and `migrate` and `sudo` are empty mappings. -/
theorem output_top_level_shape (d : Dir) (s : Json) (h : run d = .ok s) :
    topKeys s = some ["instantiate", "execute", "query", "migrate", "sudo", "responses"] ∧
      getField s "migrate" = some (.obj []) ∧ getField s "sudo" = some (.obj []) := by
  obtain ⟨i, e, q, rs, _, _, _, _, hs⟩ := run_ok_shape h
  subst hs
  exact ⟨rfl, rfl, rfl⟩

/-- **C2 witness**: a concrete run over the three mandatory files. -/
theorem output_top_level_shape_witness :
    topKeys (compose .null (.bool true) (.str "q") []) =
        some ["instantiate", "execute", "query", "migrate", "sudo", "responses"] ∧
      getField (compose .null (.bool true) (.str "q") []) "migrate" = some (.obj []) ∧
      getField (compose .null (.bool true) (.str "q") []) "sudo" = some (.obj []) :=
  output_top_level_shape
    [⟨"instantiate_msg.json", true, some .null⟩,
     ⟨"execute_msg.json", true, some (.bool true)⟩,
     ⟨"query_msg.json", true, some (.str "q")⟩] _ rfl

/-- **C5**: if any fragment that should contain structured data fails to
parse — a mandatory fragment or a collected response fragment — the run
aborts with an exception and the output file is not written. -/
theorem malformed_fragment_aborts (d : Dir)
    (h : (∃ n e, n ∈ requiredNames ∧ d.find? (fun x => x.name == n) = some e ∧
            e.content = none) ∨
         (∃ e, e ∈ discover d ∧ e.content = none)) :
    (∃ er, run d = .error er) ∧ runFS d = d := by
  have hne : ∀ s, run d ≠ .ok s := by
    intro s hs
    rcases h with ⟨n, e, hn, hfind, hc⟩ | ⟨e, he, hc⟩
    · obtain ⟨j, hj⟩ := run_ok_required hs n hn
      simp only [loadRequired, hfind, hc] at hj
      split at hj <;> cases hj
    · obtain ⟨_, _, _, rs, _, _, _, hrs, _⟩ := run_ok_shape hs
      obtain ⟨j, hj⟩ := loadResponses_ok_parse hrs e he
      rw [hc] at hj
      cases hj
  cases hr : run d with
  | error er => exact ⟨⟨er, rfl⟩, runFS_of_error hr⟩
  | ok s => exact absurd hr (hne s)

/-- **C3 counterexample**: the claim pairs the `execute` output with the
parsed `query_msg.json`.  On a directory whose three mandatory fragments are
pairwise distinct, the emitted value under `execute` is the parsed
`execute_msg.json` (`"e"`), not the parsed `query_msg.json` (`"q"`). -/
theorem pass_through_cex :
    run cexDir3 = .ok (compose (.str "i") (.str "e") (.str "q") []) ∧
      getField (compose (.str "i") (.str "e") (.str "q") []) "execute" =
        some (.str "e") ∧
      loadRequired cexDir3 "query_msg.json" = .ok (.str "q") ∧
      Json.str "e" ≠ Json.str "q" := by
  refine ⟨rfl, rfl, rfl, fun h => ?_⟩
  injection h with h'
  exact absurd h' (by decide)

/-- **C3 amended**: each mandatory fragment passes through unchanged to its
own key: `instantiate` carries the parsed `instantiate_msg.json`, `execute`
the parsed `execute_msg.json`, and `query` the parsed `query_msg.json`. -/
theorem pass_through_fidelity (d : Dir) (s : Json) (h : run d = .ok s) :
    getField s "instantiate" = okValue (loadRequired d "instantiate_msg.json") ∧
      getField s "execute" = okValue (loadRequired d "execute_msg.json") ∧
      getField s "query" = okValue (loadRequired d "query_msg.json") := by
  obtain ⟨i, e, q, rs, hi, he, hq, _, hs⟩ := run_ok_shape h
  subst hs
  rw [hi, he, hq]
  exact ⟨rfl, rfl, rfl⟩

/-- **C3 amended witness**: concrete pass-through on `cexDir3`. -/
theorem pass_through_fidelity_witness :
    getField (compose (.str "i") (.str "e") (.str "q") []) "instantiate" =
        okValue (loadRequired cexDir3 "instantiate_msg.json") ∧
      getField (compose (.str "i") (.str "e") (.str "q") []) "execute" =
        okValue (loadRequired cexDir3 "execute_msg.json") ∧
      getField (compose (.str "i") (.str "e") (.str "q") []) "query" =
        okValue (loadRequired cexDir3 "query_msg.json") :=
  pass_through_fidelity cexDir3 _ rfl

/-- **C4 counterexample**: for the collected file
`a_response_b_response.json` the derived key in `responses` is
`"a_response_b"` — the prefix before the first `"_response.json"` — not the
prefix `"a"` before the marker string `"_response"` that the claim
prescribes; nothing appears under `"a"`. -/
theorem response_key_cex :
    run cexDir4 = .ok (compose .null .null .null [("a_response_b", .num 7)]) ∧
      deriveKeyClaim "a_response_b_response.json" = "a" ∧
      deriveKey "a_response_b_response.json" = "a_response_b" ∧
      getField (Json.obj [("a_response_b", .num 7)]) "a" = none ∧
      ("a_response_b" : String) ≠ "a" :=
  ⟨rfl, by decide, by decide, rfl, by decide⟩

/-- **C4 amended**: for every collected response file the key is derived by
pure string manipulation from the name alone: it is the prefix of the name
before the first occurrence of the full marker `"_response.json"` (the rest
removed), and the file's parsed contents appear in `responses` under that
key (provided no other collected file deriving the same key carries
different contents); in particular `get_vote_response.json` yields exactly
`get_vote`. -/
theorem response_key_derivation (d : Dir) (s : Json) (rs : List (String × Json))
    (e : Entry) (j : Json) (hrun : run d = .ok s)
    (hresp : getField s "responses" = some (.obj rs)) (he : e ∈ discover d)
    (hj : e.content = some j)
    (hu : ∀ x ∈ discover d, deriveKey x.name = deriveKey e.name → x.content = some j) :
    (deriveKey e.name, j) ∈ rs ∧
      firstSplitAt marker e.name.data (deriveKey e.name).data ∧
      deriveKey "get_vote_response.json" = "get_vote" := by
  obtain ⟨i, ex, q, rs', _, _, _, hrs', hs⟩ := run_ok_shape hrun
  subst hs
  have hr : (some (Json.obj rs') : Option Json) = some (.obj rs) := hresp
  injection hr with hr
  injection hr with hr
  subst hr
  exact ⟨loadResponses_mem hrs' he hj hu, splitBefore_first marker e.name.data,
    by decide⟩

/-- **C4 amended witness**: the file `get_vote_response.json` of `dir4w`
appears in `responses` under the key `get_vote`. -/
theorem response_key_derivation_witness :
    (deriveKey "get_vote_response.json", Json.num 1) ∈
        [(("get_vote" : String), Json.num 1)] ∧
      firstSplitAt marker "get_vote_response.json".data
        (deriveKey "get_vote_response.json").data ∧
      deriveKey "get_vote_response.json" = "get_vote" :=
  response_key_derivation dir4w _ [("get_vote", .num 1)]
    ⟨"get_vote_response.json", true, some (.num 1)⟩ (.num 1) rfl rfl
    (List.mem_cons_self _ _) rfl
    (by intro x hx _; cases List.mem_singleton.mp hx; rfl)

/-- **C5 witness**: a response file whose contents do not parse makes the
run abort without writing the output file. -/
theorem malformed_fragment_aborts_witness :
    (∃ er, run [⟨"instantiate_msg.json", true, some .null⟩,
                ⟨"execute_msg.json", true, some .null⟩,
                ⟨"query_msg.json", true, some .null⟩,
                ⟨"bad_response.json", true, none⟩] = .error er) ∧
      runFS [⟨"instantiate_msg.json", true, some .null⟩,
             ⟨"execute_msg.json", true, some .null⟩,
             ⟨"query_msg.json", true, some .null⟩,
             ⟨"bad_response.json", true, none⟩] =
        [⟨"instantiate_msg.json", true, some .null⟩,
         ⟨"execute_msg.json", true, some .null⟩,
         ⟨"query_msg.json", true, some .null⟩,
         ⟨"bad_response.json", true, none⟩] :=
  malformed_fragment_aborts _
    (Or.inr ⟨⟨"bad_response.json", true, none⟩, List.mem_cons_self _ _, rfl⟩)

/-- **C6**: two collected response files deriving the same key — here
`foo_response.json` and `foo_response.json_response.json`, both deriving
`foo` — make the later one silently overwrite the earlier one: the run
succeeds with no error and the `responses` mapping holds the later
contents; in general a `dict` assignment always leaves the last value
under the key. -/
theorem duplicate_key_overwrites (i e q a b : Json) :
    run (dir6 i e q a b) = .ok (compose i e q [("foo", b)]) ∧
      (∀ (k : String) (v : Json) (m : List (String × Json)),
        getField (.obj (dictInsert k v m)) k = some v) :=
  ⟨rfl, getField_dictInsert⟩

/-- **C7**: discovery selects exactly the working-directory entries that are
regular files whose names end with `_response.json`, and "ends with" means
the name is some prefix followed by the marker. -/
theorem discovery_exact (d : Dir) (e : Entry) :
    (e ∈ discover d ↔ e ∈ d ∧ e.isFile = true ∧ endsWithMarker e.name = true) ∧
      (endsWithMarker e.name = true ↔ ∃ pre, e.name.data = pre ++ marker) := by
  constructor
  · constructor
    · intro h
      have h1 := List.mem_filter.mp h
      have h2 := List.mem_filter.mp h1.1
      exact ⟨h2.1, h2.2, h1.2⟩
    · rintro ⟨h1, h2, h3⟩
      exact List.mem_filter.mpr ⟨List.mem_filter.mpr ⟨h1, h2⟩, h3⟩
  · rw [endsWithMarker, List.isSuffixOf_iff_suffix]
    exact ⟨fun ⟨pre, hp⟩ => ⟨pre, hp.symm⟩, fun ⟨pre, hp⟩ => ⟨pre, hp.symm⟩⟩

/-- **C8**: the composition is deterministic and rerunning is idempotent: a
successful run still succeeds with the same document after its own output is
written back into the directory, the directory state is a fixed point from
then on, and any directory presenting the same discovered fragments and the
same mandatory loads yields the same result. -/
theorem rerun_identical (d d' : Dir) (s : Json) (h : run d = .ok s)
    (hdisc : discover d' = discover d)
    (hreq : ∀ n ∈ requiredNames, loadRequired d' n = loadRequired d n) :
    run (runFS d) = .ok s ∧ runFS (runFS d) = runFS d ∧ run d' = run d := by
  have hw : runFS d = writeEntry ⟨outputName, true, some s⟩ d := by
    rw [runFS, h]
  have hx : endsWithMarker (Entry.mk outputName true (some s)).name = false := by
    show endsWithMarker outputName = false
    decide
  have n1 : (Entry.mk outputName true (some s)).name ≠ "instantiate_msg.json" := by
    show outputName ≠ "instantiate_msg.json"
    decide
  have n2 : (Entry.mk outputName true (some s)).name ≠ "execute_msg.json" := by
    show outputName ≠ "execute_msg.json"
    decide
  have n3 : (Entry.mk outputName true (some s)).name ≠ "query_msg.json" := by
    show outputName ≠ "query_msg.json"
    decide
  have hout : run (runFS d) = .ok s := by
    rw [hw, run_writeEntry hx n1 n2 n3]
    exact h
  refine ⟨hout, ?_, ?_⟩
  · rw [runFS, hout]
    show writeEntry ⟨outputName, true, some s⟩ (runFS d) = runFS d
    rw [hw]
    exact writeEntry_idem _ _
  · unfold run
    rw [hdisc, hreq "instantiate_msg.json" (by decide),
      hreq "execute_msg.json" (by decide), hreq "query_msg.json" (by decide)]

/-- **C8 witness**: rerunning over `dir8` after its own output was written
produces the identical document and leaves the directory unchanged. -/
theorem rerun_identical_witness :
    run (runFS dir8) = .ok (compose .null .null .null [("x", .num 2)]) ∧
      runFS (runFS dir8) = runFS dir8 ∧ run dir8 = run dir8 :=
  rerun_identical dir8 dir8 _ rfl rfl (fun _ _ => rfl)

/-- **C9**: a regular file named exactly `_response.json` is collected as a
response fragment, its derived key is the empty string, and its parsed
contents appear in the output under the key `""`. -/
theorem bare_marker_collected (d : Dir) (e : Entry) (i eq q a : Json)
    (he : e ∈ d) (hf : e.isFile = true) (hn : e.name = "_response.json") :
    e ∈ discover d ∧ deriveKey e.name = "" ∧
      run (dir9 i eq q a) = .ok (compose i eq q [("", a)]) := by
  refine ⟨?_, by rw [hn]; decide, rfl⟩
  have hm : endsWithMarker e.name = true := by rw [hn]; decide
  exact List.mem_filter.mpr ⟨List.mem_filter.mpr ⟨he, hf⟩, hm⟩

/-- **C9 witness**: the `_response.json` file of `dir9` is collected and its
contents land under the empty-string key. -/
theorem bare_marker_collected_witness :
    (⟨"_response.json", true, some (.num 3)⟩ : Entry) ∈
        discover (dir9 .null .null .null (.num 3)) ∧
      deriveKey "_response.json" = "" ∧
      run (dir9 .null .null .null (.num 3)) =
        .ok (compose .null .null .null [("", .num 3)]) :=
  bare_marker_collected (dir9 .null .null .null (.num 3))
    ⟨"_response.json", true, some (.num 3)⟩ .null .null .null (.num 3)
    (by simp [dir9]) rfl rfl

/-- **C10**: the output file name does not end with the response marker, so
no discovered fragment is the output file and every entry of `responses`
originates from a discovered file distinct from the output file — a
previous run's output is never collected and never appears in `responses`. -/
theorem output_never_collected (d : Dir) (s : Json) (rs : List (String × Json))
    (x : Entry) (p : String × Json) (hrun : run d = .ok s)
    (hresp : getField s "responses" = some (.obj rs))
    (hx : x ∈ discover d) (hp : p ∈ rs) :
    endsWithMarker outputName = false ∧ x.name ≠ outputName ∧
      ∃ e, e ∈ discover d ∧ e.name ≠ outputName ∧
        p.1 = deriveKey e.name ∧ e.content = some p.2 := by
  have hname : ∀ y : Entry, y ∈ discover d → y.name ≠ outputName := by
    intro y hy hcontra
    have hm : endsWithMarker y.name = true :=
      (List.mem_filter.mp hy).2
    rw [hcontra] at hm
    exact absurd hm (by decide)
  obtain ⟨i, ex, q, rs', _, _, _, hrs', hs⟩ := run_ok_shape hrun
  subst hs
  have hr : (some (Json.obj rs') : Option Json) = some (.obj rs) := hresp
  injection hr with hr
  injection hr with hr
  subst hr
  refine ⟨by decide, hname x hx, ?_⟩
  rcases loadResponses_source hrs' p hp with habs | ⟨e, he, h1, h2⟩
  · cases habs
  · exact ⟨e, he, hname e he, h1, h2⟩

/-- **C10 witness**: over `dir10`, which already holds a previous output
file, the single response entry originates from `x_response.json`, not from
the output file. -/
theorem output_never_collected_witness :
    endsWithMarker outputName = false ∧
      (⟨"x_response.json", true, some (.num 2)⟩ : Entry).name ≠ outputName ∧
      ∃ e, e ∈ discover dir10 ∧ e.name ≠ outputName ∧
        (("x" : String), Json.num 2).1 = deriveKey e.name ∧
        e.content = some (("x" : String), Json.num 2).2 :=
  output_never_collected dir10 _ [("x", .num 2)]
    ⟨"x_response.json", true, some (.num 2)⟩ ("x", .num 2) rfl rfl
    (List.mem_cons_self _ _) (List.mem_cons_self _ _)
